import Mathlib

/-!
Shallow embedding of the Titan Files version-control service
(`titan/services/versions.py`) and proofs about its commit protocol,
hook pipeline and path rewriter.

Python strings are modelled as `List Char`.  The App Engine datastore is
modelled by the `Store` structure: changeset entities keyed by number,
`_FileVersion` rows as a list, `_FilePointer` rows as a partial map from
root path to changeset number and the primitive file store (an external
collaborator of the service, whose capability set `Get / Copy / ListFiles`
over plain paths is modelled from the specification) as an association
list from full path to staged file.
-/

namespace Titan

/-- Python strings are sequences of characters. -/
abbrev Path := List Char

/-- Users are opaque identifiers. -/
abbrev User := String

/-- CHANGESET_NEW / CHANGESET_PRE_SUBMIT / CHANGESET_SUBMITTED /
CHANGESET_DELETED / CHANGESET_DELETED_BY_SUBMIT. -/
inductive ChangesetStatus
  | new
  | preSubmit
  | submitted
  | deleted
  | deletedBySubmit
  deriving DecidableEq

/-- FILE_CREATED / FILE_EDITED / FILE_DELETED. -/
inductive FileStatus
  | created
  | edited
  | deleted
  deriving DecidableEq

/-- Exceptions raised by the versions service.  `commitEmpty` and
`commitBadStatus` are the two `CommitError` cases; `changesetNotFound`,
`changesetBrokenLink` and `changesetNotNew` are `ChangesetError` cases;
`typeError` models the Python `TypeError` for non-string paths. -/
inductive TitanError
  | changesetNotFound (num : Nat)
  | changesetBrokenLink (num : Nat)
  | changesetNotNew (status : ChangesetStatus)
  | commitEmpty (num : Nat)
  | commitBadStatus (status : ChangesetStatus)
  | typeError
  deriving DecidableEq

/-- The constant path prefix of `VERSIONS_PATH_FORMAT`, the characters of
the Python string literal `'/_titan/ver/'`. -/
def verPrefix : Path :=
  ['/', '_', 't', 'i', 't', 'a', 'n', '/', 'v', 'e', 'r', '/']

/-- The ASCII character of a decimal digit `d < 10`. -/
def digitChar (d : Nat) : Char := Char.ofNat (48 + d)

/-- Fuelled big-endian decimal rendering; `fuel` bounds the number of
division steps and any `fuel ≥ n` is sufficient. -/
def natCharsAux : Nat → Nat → List Char
  | 0, _ => []
  | fuel + 1, n =>
    if n = 0 then [] else natCharsAux fuel (n / 10) ++ [digitChar (n % 10)]

/-- Decimal rendering of a natural number, the characters produced by
Python `'%d' % n`. -/
def natChars (n : Nat) : List Char :=
  if n = 0 then ['0'] else natCharsAux n n

/-- Numeric value of a big-endian list of decimal digit characters, as
captured by the regex group `([0-9]+)` converted with `int(...)`. -/
def charsToNat (ds : List Char) : Nat :=
  ds.foldl (fun a c => 10 * a + (c.toNat - 48)) 0

/-- VERSIONS_PATH_FORMAT % (num, path): `'/_titan/ver/%d%s'`. -/
def makeVersionedPath (num : Nat) (path : Path) : Path :=
  verPrefix ++ natChars num ++ path

/-- Match of `VERSIONS_PATH_BASE_REGEX = re.compile('^/_titan/ver/([0-9]+)')`
against a path, returning the captured changeset number and the remainder
of the path after the matched prefix (`re.sub(regex, '', path)`).  The
group `([0-9]+)` is greedy: it captures the maximal run of digits. -/
def stripVersion (s : Path) : Option (Nat × Path) :=
  if s.take verPrefix.length = verPrefix then
    let rest := s.drop verPrefix.length
    let ds := rest.takeWhile Char.isDigit
    if ds = [] then none else some (charsToNat ds, rest.drop ds.length)
  else none

/-- A dynamically typed Python argument: a string, or some other object. -/
inductive PyVal
  | str (s : Path)
  | obj
  deriving DecidableEq

/-- The `paths` argument of `_MakeVersionedPaths`: a single value or an
iterable of values (`hasattr(paths, '__iter__')`). -/
inductive PyPaths
  | single (v : PyVal)
  | multiple (vs : List PyVal)
  deriving DecidableEq

/-- The rewritten `paths` produced by `_MakeVersionedPaths`. -/
inductive PyPathsOut
  | single (p : Path)
  | multiple (ps : List Path)
  deriving DecidableEq

/-- The loop body of `_MakeVersionedPaths`: each path must be a string
(`isinstance(path, basestring)`), otherwise `TypeError` is raised at the
offending element. -/
def mapVersioned (csNum : Nat) : List PyVal → Except TitanError (List Path)
  | [] => Except.ok []
  | v :: rest =>
    match v with
    | PyVal.obj => Except.error TitanError.typeError
    | PyVal.str s =>
      match mapVersioned csNum rest with
      | Except.error e => Except.error e
      | Except.ok l => Except.ok (makeVersionedPath csNum s :: l)

/-- `_MakeVersionedPaths(paths, changeset)`: returns the two-tuple of
(versioned paths, is_multiple). -/
def MakeVersionedPaths (paths : PyPaths) (csNum : Nat) :
    Except TitanError (PyPathsOut × Bool) :=
  match paths with
  | PyPaths.single v =>
    match v with
    | PyVal.obj => Except.error TitanError.typeError
    | PyVal.str s => Except.ok (PyPathsOut.single (makeVersionedPath csNum s), false)
  | PyPaths.multiple vs =>
    match mapVersioned csNum vs with
    | Except.error e => Except.error e
    | Except.ok ps => Except.ok (PyPathsOut.multiple ps, true)

/-- A `_Changeset` entity.  Entities are stored under the key
`str(num)`; `linked` holds the key of the `linked_changeset` reference. -/
structure ChangesetEnt where
  num : Nat
  created : Nat
  status : ChangesetStatus
  linked : Option Nat
  created_by : Option User
  deriving DecidableEq

/-- A `_FileVersion` entity; `key_name` is `'<changeset num>:<path>'`. -/
structure FileVersionEnt where
  key_name : Path
  path : Path
  changeset_num : Nat
  changeset_created_by : Option User
  created : Nat
  status : FileStatus
  deriving DecidableEq

/-- `_FileVersion.MakeKeyName(changeset, path) = ':'.join([str(changeset.num), path])`. -/
def makeKeyName (csNum : Nat) (path : Path) : Path :=
  natChars csNum ++ ':' :: path

/-- A staged file as seen through a `VersionedFile`: its content and the
`status` meta property written by the write/touch/delete hooks. -/
structure StagedFile where
  content : Path
  status : FileStatus
  deriving DecidableEq

/-- `_FilePointer.versioned_path`: the pointer's key name is the root
path and `changeset_num` its target changeset. -/
def pointerVersionedPath (e : Path × Nat) : Path :=
  makeVersionedPath e.2 e.1

/-- The persistent state: the changeset counter, a clock for
`auto_now_add` timestamps, the current user for `auto_current_user_add`,
the `_Changeset` group keyed by changeset number, the `_FileVersion`
rows, the `_FilePointer` group keyed by root path, and the primitive
file store keyed by full (versioned) path. -/
structure Store where
  counter : Nat
  clock : Nat
  currentUser : Option User
  changesets : Nat → Option ChangesetEnt
  fileVersions : List FileVersionEnt
  pointers : Path → Option Nat
  files : List (Path × StagedFile)

/-- Modelled from the spec: the primitive store's `Get` over a plain
(already rewritten) path is a key lookup in the file table. -/
def lookupFile (files : List (Path × StagedFile)) (p : Path) : Option StagedFile :=
  (files.find? (fun e => e.1 = p)).map Prod.snd

/-- Modelled from the spec: the primitive store's `Write`/`Copy` target
behaviour — writing a file at a full path replaces any previous entry. -/
def putFile (files : List (Path × StagedFile)) (p : Path) (f : StagedFile) :
    List (Path × StagedFile) :=
  (p, f) :: files.filter (fun e => ¬ e.1 = p)

/-- `VersionControlService._NewChangeset(status, created_by)`: allocate
`num` with the strong counter, create the entity (letting
`auto_current_user_add` fill `created_by` when the argument is falsy)
and put it. -/
def NewChangeset (store : Store) (status : ChangesetStatus) (created_by : Option User) :
    Store × ChangesetEnt :=
  let num := store.counter + 1
  let ent : ChangesetEnt :=
    { num := num
      created := store.clock
      status := status
      linked := none
      created_by := match created_by with
        | some u => some u
        | none => store.currentUser }
  ({ store with
      counter := num
      clock := store.clock + 1
      changesets := fun n => if n = num then some ent else store.changesets n },
   ent)

/-- Effective commit status of a staged file:
`status = FILE_CREATED if file_obj.status == FILE_EDITED and not file_pointer else file_obj.status`. -/
def effectiveStatus (s : FileStatus) (ptr : Option Nat) : FileStatus :=
  if s = FileStatus.edited ∧ ptr = none then FileStatus.created else s

/-- The `_FileVersion` entity created for one staged file in `_Commit`. -/
def mkFileVersion (ptrs : Path → Option Nat) (finalEnt : ChangesetEnt) (clock : Nat)
    (e : Path × StagedFile) : FileVersionEnt :=
  { key_name := makeKeyName finalEnt.num e.1
    path := e.1
    changeset_num := finalEnt.num
    changeset_created_by := finalEnt.created_by
    created := clock
    status := effectiveStatus e.2.status (ptrs e.1) }

/-- The per-file loop of `_Commit`, producing `new_file_versions`,
`updated_file_pointers` (as pairs of root path and the staging changeset
number they are pointed at) and `deleted_file_pointers` (as root paths).
Pointer lookups read the pre-transaction `file_pointers` map. -/
def commitLoop (ptrs : Path → Option Nat) (finalEnt : ChangesetEnt)
    (stagedNum clock : Nat) :
    List (Path × StagedFile) →
      List FileVersionEnt × List (Path × Nat) × List Path
  | [] => ([], [], [])
  | e :: rest =>
    let done := commitLoop ptrs finalEnt stagedNum clock rest
    let fv := mkFileVersion ptrs finalEnt clock e
    let status := effectiveStatus e.2.status (ptrs e.1)
    if status = FileStatus.deleted then
      if (ptrs e.1).isSome then (fv :: done.1, done.2.1, e.1 :: done.2.2)
      else (fv :: done.1, done.2.1, done.2.2)
    else (fv :: done.1, (e.1, stagedNum) :: done.2.1, done.2.2)

/-- `db.put(updated_file_pointers)`: write each pointer at its key. -/
def putPointers (ptrs : Path → Option Nat) (upds : List (Path × Nat)) :
    Path → Option Nat :=
  upds.foldl (fun m e => fun q => if q = e.1 then some e.2 else m q) ptrs

/-- `db.delete(deleted_file_pointers)`: delete each pointer at its key. -/
def delPointers (ptrs : Path → Option Nat) (dels : List Path) :
    Path → Option Nat :=
  dels.foldl (fun m d => fun q => if q = d then none else m q) ptrs

/-- `VersionControlService._Commit(staged_changeset, final_changeset,
staged_file_objs)`: flip both changeset statuses and link them, then
create the `_FileVersion` rows and apply the pointer puts and deletes.
`stagedNum` is the staging `Changeset` object's number (the key the
entity is stored under). -/
def CommitTxn (store : Store) (stagedNum : Nat) (stagedEnt finalEnt : ChangesetEnt)
    (stagedFiles : List (Path × StagedFile)) : Store :=
  let stagedEnt2 := { stagedEnt with
    status := ChangesetStatus.deletedBySubmit
    linked := some finalEnt.num }
  let finalEnt2 := { finalEnt with
    status := ChangesetStatus.submitted
    linked := some stagedNum }
  let cs1 := fun n => if n = stagedNum then some stagedEnt2 else store.changesets n
  let cs2 := fun n => if n = finalEnt.num then some finalEnt2 else cs1 n
  let done := commitLoop store.pointers finalEnt stagedNum store.clock stagedFiles
  { store with
      changesets := cs2
      fileVersions := store.fileVersions ++ done.1
      pointers := delPointers (putPointers store.pointers done.2.1) done.2.2
      clock := store.clock + 1 }

/-- `HookForListFiles` restricted to a changeset: list every file stored
under `/_titan/ver/<num>/` and strip the versioned prefix, as
`Changeset.GetFiles` does through `files.ListFiles` and `VersionedFile`. -/
def listChangesetFiles (files : List (Path × StagedFile)) (num : Nat) :
    List (Path × StagedFile) :=
  files.filterMap fun e =>
    match stripVersion e.1 with
    | some (n, p) => if n = num then some (p, e.2) else none
    | none => none

/-- `Changeset.GetFiles()`: for a SUBMITTED changeset the files are
stored under the linked staging changeset's number; `none` models the
crash when a submitted changeset has no link. -/
def GetFiles (store : Store) (csNum : Nat) (csEnt : ChangesetEnt) :
    Option (List (Path × StagedFile)) :=
  if csEnt.status = ChangesetStatus.submitted then
    csEnt.linked.map (fun ln => listChangesetFiles store.files ln)
  else some (listChangesetFiles store.files csNum)

/-- `VersionControlService.Commit(staged_changeset)`: enumerate the
staged files, fail with `CommitError` on an empty enumeration, then fail
with `CommitError` unless the status is NEW, allocate the final
changeset outside the transaction and run `_Commit`.  The returned store
is the post-state (unchanged when an exception is raised before any
mutation); the `Except` value carries the final changeset number. -/
def Commit (store : Store) (stagedNum : Nat) : Store × Except TitanError Nat :=
  match store.changesets stagedNum with
  | none => (store, Except.error (TitanError.changesetNotFound stagedNum))
  | some stagedEnt =>
    match GetFiles store stagedNum stagedEnt with
    | none => (store, Except.error (TitanError.changesetBrokenLink stagedNum))
    | some stagedFileObjs =>
      if stagedFileObjs = [] then
        (store, Except.error (TitanError.commitEmpty stagedNum))
      else if stagedEnt.status ≠ ChangesetStatus.new then
        (store, Except.error (TitanError.commitBadStatus stagedEnt.status))
      else
        let sf := NewChangeset store ChangesetStatus.preSubmit stagedEnt.created_by
        (CommitTxn sf.1 stagedNum stagedEnt sf.2 stagedFileObjs,
         Except.ok sf.2.num)

/-- The `paths` argument of `files.Get` after `ValidatePaths`: a single
path or a list of paths (`hasattr(paths, '__iter__')`). -/
inductive PathsArg
  | single (p : Path)
  | multiple (ps : List Path)
  deriving DecidableEq

/-- Outcome of `HookForGet.Pre` with `changeset=None`.  Modelled from the
spec: a hook `Pre` either returns a mapping overriding the inner call's
arguments (`passThrough`) or short-circuits, bypassing the inner call
with the supplied return value — here `None` for a single-path call or
the empty mapping for a multi-path call. -/
inductive GetPreResult
  | shortCircNone
  | shortCircEmptyDict
  | passThrough (paths : PyPathsOut)
  deriving DecidableEq

/-- `HookForGet.Pre` with `changeset=None`: fetch the `_FilePointer` of
every requested path, keep the `versioned_path` of those that exist, and
short-circuit (matching arity) when none is left. -/
def hookForGetPre (ptrs : Path → Option Nat) (arg : PathsArg) : GetPreResult :=
  match arg with
  | PathsArg.single p =>
    let filePointers := [(ptrs p).map (fun n => (p, n))]
    let versionedPaths := (filePointers.filterMap id).map pointerVersionedPath
    match versionedPaths with
    | [] => GetPreResult.shortCircNone
    | vp :: _ => GetPreResult.passThrough (PyPathsOut.single vp)
  | PathsArg.multiple ps =>
    let filePointers := ps.map (fun p => (ptrs p).map (fun n => (p, n)))
    let versionedPaths := (filePointers.filterMap id).map pointerVersionedPath
    if versionedPaths = [] then GetPreResult.shortCircEmptyDict
    else GetPreResult.passThrough (PyPathsOut.multiple versionedPaths)

/-- `files.Get` for a single path through the versions hooks: with no
changeset, dereference the `_FilePointer`; with a changeset number, read
the versioned path directly. -/
def filesGetSingle (store : Store) (p : Path) (csNum : Option Nat) : Option StagedFile :=
  match csNum with
  | none =>
    match store.pointers p with
    | none => none
    | some n => lookupFile store.files (makeVersionedPath n p)
  | some n => lookupFile store.files (makeVersionedPath n p)

/-- `_VerifyIsNewChangeset(changeset)`: raise `ChangesetError` unless the
changeset status is NEW. -/
def VerifyIsNewChangeset (cs : ChangesetEnt) : Except TitanError Unit :=
  if cs.status ≠ ChangesetStatus.new then
    Except.error (TitanError.changesetNotNew cs.status)
  else Except.ok ()

/-- `_CopyFilesFromRoot` for one path: if a current root revision of
`rootPath` exists (through its pointer) and the staged copy is absent or
deleted, copy the root revision's blob to the versioned path. -/
def CopyFilesFromRoot (store : Store) (rootPath versionedPath : Path) (csNum : Nat) :
    Store :=
  match filesGetSingle store rootPath none with
  | none => store
  | some rootFile =>
    match filesGetSingle store rootPath (some csNum) with
    | none => { store with files := putFile store.files versionedPath rootFile }
    | some versionedFile =>
      if versionedFile.status = FileStatus.deleted then
        { store with files := putFile store.files versionedPath rootFile }
      else store

/-- The changed keyword arguments computed by `HookForWrite.Pre`. -/
structure WriteArgs where
  path : Path
  content : Option Path
  metaStatus : FileStatus
  deriving DecidableEq

/-- `HookForWrite.Pre(changeset, delete, path)`: verify the changeset is
NEW, rewrite the path to its versioned form, then either force empty
content with `meta.status = FILE_DELETED`, or branch the current root
file into the changeset and set `meta.status = FILE_EDITED`. -/
def hookForWritePre (store : Store) (cs : ChangesetEnt) (deleteFlag : Bool)
    (path : Path) : Except TitanError (WriteArgs × Store) :=
  match VerifyIsNewChangeset cs with
  | Except.error e => Except.error e
  | Except.ok _ =>
    let versionedPath := makeVersionedPath cs.num path
    if deleteFlag then
      Except.ok ({ path := versionedPath
                   content := some []
                   metaStatus := FileStatus.deleted }, store)
    else
      Except.ok ({ path := versionedPath
                   content := none
                   metaStatus := FileStatus.edited },
                 CopyFilesFromRoot store path versionedPath cs.num)

/-- `HookForTouch.Pre(changeset, paths)`: verify the changeset is NEW,
rewrite all paths, branch each root file into the changeset and set
`meta.status = FILE_EDITED`. -/
def hookForTouchPre (store : Store) (cs : ChangesetEnt) (paths : List Path) :
    Except TitanError (List Path × FileStatus × Store) :=
  match VerifyIsNewChangeset cs with
  | Except.error e => Except.error e
  | Except.ok _ =>
    let versionedPaths := paths.map (makeVersionedPath cs.num)
    let store2 := (paths.zip versionedPaths).foldl
      (fun st pv => CopyFilesFromRoot st pv.1 pv.2 cs.num) store
    Except.ok (versionedPaths, FileStatus.edited, store2)

/-- `HookForDelete.Pre(changeset, paths)`: verify the changeset is NEW
and rewrite the paths so only the staged copies are removed. -/
def hookForDeletePre (cs : ChangesetEnt) (paths : List Path) :
    Except TitanError (List Path) :=
  match VerifyIsNewChangeset cs with
  | Except.error e => Except.error e
  | Except.ok _ => Except.ok (paths.map (makeVersionedPath cs.num))

/-- Datastore descending order on the `created` property
(`order('-created')`). -/
def byCreatedDesc (a b : FileVersionEnt) : Prop := b.created ≤ a.created

instance : DecidableRel byCreatedDesc :=
  fun a b => Nat.decLe b.created a.created

instance : IsTotal FileVersionEnt byCreatedDesc :=
  ⟨fun a b => Nat.le_total b.created a.created⟩

instance : IsTrans FileVersionEnt byCreatedDesc :=
  ⟨fun _ _ _ h1 h2 => Nat.le_trans h2 h1⟩

/-- `VersionControlService.GetFileVersions(path, limit)`: filter the
`_FileVersion` rows by `path`, order by `created` descending (the
datastore sort is modelled by a stable insertion sort) and fetch at most
`limit` rows. -/
def GetFileVersions (store : Store) (path : Path) (limit : Nat) :
    List FileVersionEnt :=
  (List.insertionSort byCreatedDesc
    (store.fileVersions.filter (fun fv => fv.path = path))).take limit

/-- A public `FileVersion` object: the plain path and the changeset
number it was constructed with. -/
structure FileVersionObj where
  path : Path
  changeset_num : Nat
  deriving DecidableEq

/-- `FileVersion.versioned_path`:
`VERSIONS_PATH_FORMAT % (self._changeset.num, self._path)`. -/
def FileVersionObj.versioned_path (fv : FileVersionObj) : Path :=
  makeVersionedPath fv.changeset_num fv.path

/-- The file fetched by `GenerateDiff` for one `FileVersion` argument:
`files.Get(file_version.path, changeset=file_version.changeset.linked_changeset)`. -/
def generateDiffFetchOne (store : Store) (fv : FileVersionObj) : Option StagedFile :=
  match store.changesets fv.changeset_num with
  | none => none
  | some cs =>
    match cs.linked with
    | none => none
    | some ln => filesGetSingle store fv.path (some ln)

/-- `VersionControlService.GenerateDiff`: fetch both file versions
through their linked changesets and hand the two contents to the
textual diff algorithm (which is outside the service's contract; only
the fetched contents matter here). -/
def GenerateDiff (store : Store) (before after : FileVersionObj) :
    Option (Path × Path) :=
  match generateDiffFetchOne store before, generateDiffFetchOne store after with
  | some b, some a => some (b.content, a.content)
  | _, _ => none

/-- Selector of `updated_file_pointers` entries for one staged file in
the `_Commit` loop. -/
def updSel (ptrs : Path → Option Nat) (stagedNum : Nat) (e : Path × StagedFile) :
    Option (Path × Nat) :=
  if effectiveStatus e.2.status (ptrs e.1) = FileStatus.deleted then none
  else some (e.1, stagedNum)

/-- Selector of `deleted_file_pointers` entries for one staged file in
the `_Commit` loop. -/
def delSel (ptrs : Path → Option Nat) (e : Path × StagedFile) : Option Path :=
  if effectiveStatus e.2.status (ptrs e.1) = FileStatus.deleted ∧ (ptrs e.1).isSome
  then some e.1 else none

/-! Concrete stores used to exercise the theorems on closed inputs. -/

/-- A staging changeset entity with number 1 and status NEW. -/
def exChangeset : ChangesetEnt :=
  { num := 1
    created := 0
    status := ChangesetStatus.new
    linked := none
    created_by := some "alice" }

/-- A submitted changeset entity. -/
def exSubmittedChangeset : ChangesetEnt :=
  { num := 3
    created := 0
    status := ChangesetStatus.submitted
    linked := some 1
    created_by := none }

/-- A staged file marked edited. -/
def exFileA : StagedFile := { content := ['h', 'i'], status := FileStatus.edited }

/-- A staged file marked deleted. -/
def exFileB : StagedFile := { content := [], status := FileStatus.deleted }

/-- The versioned path `/_titan/ver/1/a`. -/
def exVerPathA : Path :=
  ['/', '_', 't', 'i', 't', 'a', 'n', '/', 'v', 'e', 'r', '/', '1', '/', 'a']

/-- The versioned path `/_titan/ver/1/b`. -/
def exVerPathB : Path :=
  ['/', '_', 't', 'i', 't', 'a', 'n', '/', 'v', 'e', 'r', '/', '1', '/', 'b']

/-- A store holding the NEW changeset 1 with two staged files: `/a`
(edited, no pointer) and `/b` (deleted, with an existing pointer). -/
def exStore : Store :=
  { counter := 1
    clock := 1
    currentUser := some "alice"
    changesets := fun n => if n = 1 then some exChangeset else none
    fileVersions := []
    pointers := fun p => if p = ['/', 'b'] then some 1 else none
    files := [(exVerPathA, exFileA), (exVerPathB, exFileB)] }

/-- A history row for `/a` at changeset 2. -/
def exFvA1 : FileVersionEnt :=
  { key_name := ['2', ':', '/', 'a']
    path := ['/', 'a']
    changeset_num := 2
    changeset_created_by := none
    created := 3
    status := FileStatus.created }

/-- A history row for `/a` at changeset 4. -/
def exFvA2 : FileVersionEnt :=
  { key_name := ['4', ':', '/', 'a']
    path := ['/', 'a']
    changeset_num := 4
    changeset_created_by := none
    created := 7
    status := FileStatus.edited }

/-- A history row for `/b` at changeset 3. -/
def exFvB1 : FileVersionEnt :=
  { key_name := ['3', ':', '/', 'b']
    path := ['/', 'b']
    changeset_num := 3
    changeset_created_by := none
    created := 5
    status := FileStatus.deleted }

/-- A store holding three committed history rows. -/
def exHistoryStore : Store :=
  { counter := 4
    clock := 9
    currentUser := none
    changesets := fun _ => none
    fileVersions := [exFvA1, exFvB1, exFvA2]
    pointers := fun _ => none
    files := [] }

/-! Lemmas about the decimal rendering and the path rewriter. -/

lemma natCharsAux_eq (fuel : Nat) :
    ∀ n : Nat, n ≤ fuel →
      natCharsAux fuel n = (Nat.digits 10 n).reverse.map digitChar := by
  induction fuel with
  | zero =>
    intro n hn
    have h0 : n = 0 := Nat.le_zero.mp hn
    subst h0
    simp [natCharsAux]
  | succ f ih =>
    intro n hn
    by_cases hn0 : n = 0
    · subst hn0; simp [natCharsAux]
    · have hdiv : n / 10 < n := Nat.div_lt_self (Nat.pos_of_ne_zero hn0) (by omega)
      have hle : n / 10 ≤ f := by omega
      rw [natCharsAux, if_neg hn0, ih (n / 10) hle,
        Nat.digits_def' (by omega : 1 < 10) (Nat.pos_of_ne_zero hn0)]
      simp

lemma natChars_eq (n : Nat) :
    natChars n = if n = 0 then ['0'] else (Nat.digits 10 n).reverse.map digitChar := by
  by_cases hn : n = 0
  · simp [natChars, hn]
  · simp only [natChars, if_neg hn]
    exact natCharsAux_eq n n (Nat.le_refl n)

lemma digitChar_isDigit {d : Nat} (hd : d < 10) : (digitChar d).isDigit = true := by
  interval_cases d <;> decide

lemma digitChar_toNat {d : Nat} (hd : d < 10) : (digitChar d).toNat = 48 + d := by
  interval_cases d <;> decide

lemma natChars_all_digits (n : Nat) : ∀ c ∈ natChars n, c.isDigit = true := by
  rw [natChars_eq]
  split
  · intro c hc
    simp only [List.mem_singleton] at hc
    subst hc; decide
  · intro c hc
    simp only [List.mem_map, List.mem_reverse] at hc
    obtain ⟨d, hd, rfl⟩ := hc
    exact digitChar_isDigit (Nat.digits_lt_base (by omega) hd)

lemma natChars_ne_nil (n : Nat) : natChars n ≠ [] := by
  rw [natChars_eq]
  split
  · simp
  · next h =>
    simp only [ne_eq, List.map_eq_nil_iff, List.reverse_eq_nil_iff]
    exact Nat.digits_ne_nil_iff_ne_zero.mpr h

lemma foldl_digits (L : List Nat) (a : Nat) :
    L.reverse.foldl (fun x d => 10 * x + d) a =
      a * 10 ^ L.length + Nat.ofDigits 10 L := by
  induction L generalizing a with
  | nil => simp [Nat.ofDigits]
  | cons d t ih =>
    simp only [List.reverse_cons, List.foldl_append, List.foldl_cons,
      List.foldl_nil, ih, Nat.ofDigits_cons, List.length_cons, pow_succ]
    ring

lemma charsToNat_natChars (n : Nat) : charsToNat (natChars n) = n := by
  rw [natChars_eq]
  split
  · subst n; decide
  · unfold charsToNat
    rw [List.foldl_map,
      List.foldl_ext _ (fun x d => 10 * x + d) 0
        (by
          intro a d hd
          have hd10 : d < 10 :=
            Nat.digits_lt_base (by omega) (List.mem_reverse.mp hd)
          show 10 * a + ((digitChar d).toNat - 48) = 10 * a + d
          rw [digitChar_toNat hd10]
          omega),
      foldl_digits]
    simp [Nat.ofDigits_digits]

lemma natChars_injective {m n : Nat} (h : natChars m = natChars n) : m = n := by
  have h2 := congrArg charsToNat h
  rwa [charsToNat_natChars, charsToNat_natChars] at h2

lemma makeVersionedPath_num_inj {m n : Nat} {p : Path}
    (h : makeVersionedPath m p = makeVersionedPath n p) : m = n := by
  unfold makeVersionedPath at h
  exact natChars_injective
    (List.append_cancel_left (List.append_cancel_right h))

lemma stripVersion_make (n : Nat) (p : Path)
    (hp : p.takeWhile Char.isDigit = []) :
    stripVersion (makeVersionedPath n p) = some (n, p) := by
  have hform : makeVersionedPath n p = verPrefix ++ (natChars n ++ p) := by
    simp [makeVersionedPath, List.append_assoc]
  have htw : (natChars n ++ p).takeWhile Char.isDigit = natChars n := by
    rw [List.takeWhile_append_of_pos (natChars_all_digits n), hp,
      List.append_nil]
  unfold stripVersion
  rw [hform]
  simp only [List.take_left, List.drop_left, htw, if_neg (natChars_ne_nil n),
    charsToNat_natChars, if_pos rfl, if_true]

/-! Characterization of the commit loop and the pointer batch writes. -/

lemma commitLoop_eq (ptrs : Path → Option Nat) (finalEnt : ChangesetEnt)
    (stagedNum clock : Nat) (L : List (Path × StagedFile)) :
    commitLoop ptrs finalEnt stagedNum clock L =
      (L.map (mkFileVersion ptrs finalEnt clock),
       L.filterMap (updSel ptrs stagedNum),
       L.filterMap (delSel ptrs)) := by
  induction L with
  | nil => rfl
  | cons e rest ih =>
    simp only [commitLoop, ih, List.map_cons, List.filterMap_cons, updSel, delSel]
    by_cases h : effectiveStatus e.2.status (ptrs e.1) = FileStatus.deleted
    · by_cases h2 : (ptrs e.1).isSome = true <;> simp [h, h2]
    · simp [h]

lemma putPointers_cons (ptrs : Path → Option Nat) (e : Path × Nat)
    (rest : List (Path × Nat)) :
    putPointers ptrs (e :: rest) =
      putPointers (fun q => if q = e.1 then some e.2 else ptrs q) rest := rfl

lemma putPointers_not_mem {upds : List (Path × Nat)} {q : Path}
    (h : ∀ e ∈ upds, e.1 ≠ q) :
    ∀ ptrs, putPointers ptrs upds q = ptrs q := by
  induction upds with
  | nil => intro ptrs; rfl
  | cons e rest ih =>
    intro ptrs
    rw [putPointers_cons, ih (fun x hx => h x (List.mem_cons_of_mem e hx))]
    exact if_neg (fun hq => h e (List.mem_cons_self e rest) hq.symm)

lemma putPointers_mem {upds : List (Path × Nat)} {q : Path} {n : Nat}
    (hnd : (upds.map Prod.fst).Nodup) (hmem : (q, n) ∈ upds) :
    ∀ ptrs, putPointers ptrs upds q = some n := by
  induction upds with
  | nil => cases hmem
  | cons e rest ih =>
    intro ptrs
    rw [putPointers_cons]
    rcases List.mem_cons.mp hmem with heq | hrest
    · have hq : ∀ x ∈ rest, x.1 ≠ q := by
        intro x hx hx1
        have hmm : q ∈ rest.map Prod.fst := by
          rw [← hx1]
          exact List.mem_map_of_mem Prod.fst hx
        rw [List.map_cons, List.nodup_cons, ← heq] at hnd
        exact hnd.1 hmm
      rw [putPointers_not_mem hq]
      rw [← heq]
      simp
    · have hnd2 : (rest.map Prod.fst).Nodup := by
        rw [List.map_cons, List.nodup_cons] at hnd
        exact hnd.2
      exact ih hnd2 hrest _

lemma delPointers_cons (ptrs : Path → Option Nat) (d : Path) (rest : List Path) :
    delPointers ptrs (d :: rest) =
      delPointers (fun q => if q = d then none else ptrs q) rest := rfl

lemma delPointers_not_mem {dels : List Path} {q : Path} (h : q ∉ dels) :
    ∀ ptrs, delPointers ptrs dels q = ptrs q := by
  induction dels with
  | nil => intro ptrs; rfl
  | cons d rest ih =>
    intro ptrs
    rw [delPointers_cons, ih (fun hq => h (List.mem_cons_of_mem d hq))]
    exact if_neg (fun hq => h (by rw [hq]; exact List.mem_cons_self d rest))

lemma delPointers_mem {dels : List Path} {q : Path} (h : q ∈ dels) :
    ∀ ptrs, delPointers ptrs dels q = none := by
  induction dels with
  | nil => cases h
  | cons d rest ih =>
    intro ptrs
    rw [delPointers_cons]
    by_cases hq : q ∈ rest
    · exact ih hq _
    · have hd : q = d := by
        rcases List.mem_cons.mp h with h1 | h2
        · exact h1
        · exact absurd h2 hq
      rw [delPointers_not_mem hq]
      exact if_pos hd

lemma updSel_key {ptrs : Path → Option Nat} {stagedNum : Nat}
    {e : Path × StagedFile} {x : Path × Nat}
    (h : updSel ptrs stagedNum e = some x) :
    x = (e.1, stagedNum) ∧
      effectiveStatus e.2.status (ptrs e.1) ≠ FileStatus.deleted := by
  unfold updSel at h
  split at h
  · cases h
  · next hne => exact ⟨(Option.some.inj h).symm, hne⟩

lemma delSel_key {ptrs : Path → Option Nat} {e : Path × StagedFile} {q : Path}
    (h : delSel ptrs e = some q) :
    q = e.1 ∧ effectiveStatus e.2.status (ptrs e.1) = FileStatus.deleted ∧
      (ptrs e.1).isSome = true := by
  unfold delSel at h
  split at h
  · next hc => exact ⟨(Option.some.inj h).symm, hc.1, hc.2⟩
  · cases h

lemma updSel_keys_sublist (ptrs : Path → Option Nat) (stagedNum : Nat)
    (L : List (Path × StagedFile)) :
    ((L.filterMap (updSel ptrs stagedNum)).map Prod.fst).Sublist
      (L.map Prod.fst) := by
  induction L with
  | nil => simp
  | cons e rest ih =>
    rw [List.filterMap_cons]
    cases h : updSel ptrs stagedNum e with
    | none =>
      rw [List.map_cons]
      exact ih.cons e.1
    | some x =>
      rw [List.map_cons, List.map_cons, (updSel_key h).1]
      exact ih.cons₂ e.1

lemma CommitTxn_files (st : Store) (sn : Nat) (se fe : ChangesetEnt)
    (L : List (Path × StagedFile)) : (CommitTxn st sn se fe L).files = st.files := rfl

lemma CommitTxn_changesets_final (st : Store) (sn : Nat) (se fe : ChangesetEnt)
    (L : List (Path × StagedFile)) :
    (CommitTxn st sn se fe L).changesets fe.num =
      some { fe with status := ChangesetStatus.submitted, linked := some sn } := by
  simp [CommitTxn]

lemma CommitTxn_changesets_staged (st : Store) (sn : Nat) (se fe : ChangesetEnt)
    (L : List (Path × StagedFile)) (h : sn ≠ fe.num) :
    (CommitTxn st sn se fe L).changesets sn =
      some { se with status := ChangesetStatus.deletedBySubmit,
                     linked := some fe.num } := by
  simp [CommitTxn, h]

lemma CommitTxn_changesets_other (st : Store) (sn : Nat) (se fe : ChangesetEnt)
    (L : List (Path × StagedFile)) (n : Nat) (h1 : n ≠ sn) (h2 : n ≠ fe.num) :
    (CommitTxn st sn se fe L).changesets n = st.changesets n := by
  simp [CommitTxn, h1, h2]

lemma CommitTxn_fileVersions (st : Store) (sn : Nat) (se fe : ChangesetEnt)
    (L : List (Path × StagedFile)) :
    (CommitTxn st sn se fe L).fileVersions =
      st.fileVersions ++ L.map (mkFileVersion st.pointers fe st.clock) := by
  simp [CommitTxn, commitLoop_eq]

lemma CommitTxn_pointers (st : Store) (sn : Nat) (se fe : ChangesetEnt)
    (L : List (Path × StagedFile)) :
    (CommitTxn st sn se fe L).pointers =
      delPointers (putPointers st.pointers (L.filterMap (updSel st.pointers sn)))
        (L.filterMap (delSel st.pointers)) := by
  simp [CommitTxn, commitLoop_eq]

lemma Commit_eq_of {store : Store} {snum : Nat} {sEnt : ChangesetEnt}
    {L : List (Path × StagedFile)}
    (hs : store.changesets snum = some sEnt)
    (hL : GetFiles store snum sEnt = some L) :
    Commit store snum =
      (if L = [] then (store, Except.error (TitanError.commitEmpty snum))
       else if sEnt.status ≠ ChangesetStatus.new then
         (store, Except.error (TitanError.commitBadStatus sEnt.status))
       else
         (CommitTxn (NewChangeset store ChangesetStatus.preSubmit sEnt.created_by).1
            snum sEnt
            (NewChangeset store ChangesetStatus.preSubmit sEnt.created_by).2 L,
          Except.ok
            (NewChangeset store ChangesetStatus.preSubmit sEnt.created_by).2.num)) := by
  unfold Commit
  split
  · rename_i h
    rw [hs] at h
    cases h
  · rename_i stagedEnt h
    rw [hs] at h
    injection h with h
    subst h
    split
    · rename_i h2
      rw [hL] at h2
      cases h2
    · rename_i L2 h2
      rw [hL] at h2
      injection h2 with h2
      subst h2
      rfl

lemma Commit_ok_inv {store : Store} {snum : Nat} {sEnt : ChangesetEnt}
    {L : List (Path × StagedFile)} {fnum : Nat}
    (hs : store.changesets snum = some sEnt)
    (hL : GetFiles store snum sEnt = some L)
    (hok : (Commit store snum).2 = Except.ok fnum) :
    L ≠ [] ∧ sEnt.status = ChangesetStatus.new ∧ fnum = store.counter + 1 := by
  rw [Commit_eq_of hs hL] at hok
  by_cases hne : L = []
  · rw [if_pos hne] at hok; cases hok
  · rw [if_neg hne] at hok
    by_cases hnew : sEnt.status = ChangesetStatus.new
    · refine ⟨hne, hnew, ?_⟩
      rw [if_neg (by simp [hnew])] at hok
      exact (Except.ok.inj hok).symm
    · rw [if_pos hnew] at hok
      cases hok

lemma Commit_ok_store {store : Store} {snum : Nat} {sEnt : ChangesetEnt}
    {L : List (Path × StagedFile)} {fnum : Nat}
    (hs : store.changesets snum = some sEnt)
    (hL : GetFiles store snum sEnt = some L)
    (hok : (Commit store snum).2 = Except.ok fnum) :
    (Commit store snum).1 =
      CommitTxn (NewChangeset store ChangesetStatus.preSubmit sEnt.created_by).1
        snum sEnt (NewChangeset store ChangesetStatus.preSubmit sEnt.created_by).2
        L := by
  obtain ⟨hne, hnew, -⟩ := Commit_ok_inv hs hL hok
  rw [Commit_eq_of hs hL, if_neg hne, if_neg (by simp [hnew])]

lemma pointers_after_loop_ne_deleted {ptrs : Path → Option Nat} {sn : Nat}
    {L : List (Path × StagedFile)} {p : Path} {f : StagedFile}
    (hnd : (L.map Prod.fst).Nodup) (hmem : (p, f) ∈ L)
    (heff : effectiveStatus f.status (ptrs p) ≠ FileStatus.deleted) :
    delPointers (putPointers ptrs (L.filterMap (updSel ptrs sn)))
      (L.filterMap (delSel ptrs)) p = some sn := by
  have hpd : p ∉ L.filterMap (delSel ptrs) := by
    intro hp
    rcases List.mem_filterMap.mp hp with ⟨e, heL, hsel⟩
    obtain ⟨hq, hdel, -⟩ := delSel_key hsel
    have he : e = (p, f) :=
      List.inj_on_of_nodup_map hnd heL hmem (by rw [← hq])
    rw [he] at hdel
    exact heff hdel
  rw [delPointers_not_mem hpd]
  have hpu : (p, sn) ∈ L.filterMap (updSel ptrs sn) :=
    List.mem_filterMap.mpr ⟨(p, f), hmem, by unfold updSel; rw [if_neg heff]⟩
  have hndu : ((L.filterMap (updSel ptrs sn)).map Prod.fst).Nodup :=
    List.Nodup.sublist (updSel_keys_sublist ptrs sn L) hnd
  exact putPointers_mem hndu hpu _

lemma pointers_after_loop_deleted {ptrs : Path → Option Nat} {sn : Nat}
    {L : List (Path × StagedFile)} {p : Path} {f : StagedFile}
    (hnd : (L.map Prod.fst).Nodup) (hmem : (p, f) ∈ L)
    (heff : effectiveStatus f.status (ptrs p) = FileStatus.deleted) :
    delPointers (putPointers ptrs (L.filterMap (updSel ptrs sn)))
      (L.filterMap (delSel ptrs)) p = none := by
  by_cases hsome : (ptrs p).isSome = true
  · have hpd : p ∈ L.filterMap (delSel ptrs) :=
      List.mem_filterMap.mpr
        ⟨(p, f), hmem, by unfold delSel; rw [if_pos ⟨heff, hsome⟩]⟩
    exact delPointers_mem hpd _
  · have hpd : p ∉ L.filterMap (delSel ptrs) := by
      intro hp
      rcases List.mem_filterMap.mp hp with ⟨e, heL, hsel⟩
      obtain ⟨hq, -, hsm⟩ := delSel_key hsel
      rw [← hq] at hsm
      exact hsome hsm
    have hpu : ∀ e ∈ L.filterMap (updSel ptrs sn), e.1 ≠ p := by
      intro e he hep
      rcases List.mem_filterMap.mp he with ⟨x, hxL, hsel⟩
      obtain ⟨hx, hxeff⟩ := updSel_key hsel
      have hx1 : x.1 = p := by rw [hx] at hep; exact hep
      have hxe : x = (p, f) := List.inj_on_of_nodup_map hnd hxL hmem hx1
      rw [hxe] at hxeff
      exact hxeff heff
    rw [delPointers_not_mem hpd, putPointers_not_mem hpu]
    exact Option.not_isSome_iff_eq_none.mp hsome

lemma pointers_after_loop_frame {ptrs : Path → Option Nat} {sn : Nat}
    {L : List (Path × StagedFile)} {p : Path}
    (hp : p ∉ L.map Prod.fst) :
    delPointers (putPointers ptrs (L.filterMap (updSel ptrs sn)))
      (L.filterMap (delSel ptrs)) p = ptrs p := by
  have h2 : p ∉ L.filterMap (delSel ptrs) := by
    intro hc
    rcases List.mem_filterMap.mp hc with ⟨e, heL, hsel⟩
    obtain ⟨hq, -, -⟩ := delSel_key hsel
    exact hp (by rw [hq]; exact List.mem_map_of_mem Prod.fst heL)
  have h1 : ∀ e ∈ L.filterMap (updSel ptrs sn), e.1 ≠ p := by
    intro e he hep
    rcases List.mem_filterMap.mp he with ⟨x, hxL, hsel⟩
    obtain ⟨hx, -⟩ := updSel_key hsel
    refine hp ?_
    rw [← hep, hx]
    exact List.mem_map_of_mem Prod.fst hxL
  rw [delPointers_not_mem h2, putPointers_not_mem h1]

lemma NewChangeset_changesets_other (st : Store) (s : ChangesetStatus)
    (u : Option User) (n : Nat) (h : ¬ n = st.counter + 1) :
    (NewChangeset st s u).1.changesets n = st.changesets n := by
  simp [NewChangeset, h]

/-! Claim theorems. -/

/-- C1: During Commit of a staging changeset, for every staged path `p`
the FileVersion status recorded under the final changeset is CREATED if
the staged file's status is EDITED and no Pointer(p) existed before the
commit, DELETED if the staged file's status is DELETED, and EDITED
otherwise; the row is keyed by the final changeset number and `p` and
carries the final changeset's number and creator. -/
theorem commit_records_fileversion
    {store : Store} {snum : Nat} {sEnt : ChangesetEnt}
    {L : List (Path × StagedFile)} {fnum : Nat} {p : Path} {f : StagedFile}
    (hs : store.changesets snum = some sEnt)
    (hL : GetFiles store snum sEnt = some L)
    (hok : (Commit store snum).2 = Except.ok fnum)
    (hmem : (p, f) ∈ L)
    (hstaged : f.status = FileStatus.edited ∨ f.status = FileStatus.deleted) :
    ∃ fv ∈ (Commit store snum).1.fileVersions,
      fv.key_name = makeKeyName fnum p ∧
      fv.path = p ∧
      fv.changeset_num = fnum ∧
      (∃ fEnt, (Commit store snum).1.changesets fnum = some fEnt ∧
        fv.changeset_created_by = fEnt.created_by) ∧
      fv.status =
        (if f.status = FileStatus.edited ∧ store.pointers p = none then
          FileStatus.created
         else if f.status = FileStatus.deleted then FileStatus.deleted
         else FileStatus.edited) := by
  obtain ⟨hne, hnew, hf⟩ := Commit_ok_inv hs hL hok
  rw [Commit_ok_store hs hL hok]
  have hfe : (NewChangeset store ChangesetStatus.preSubmit sEnt.created_by).2.num
      = fnum := by rw [hf]; rfl
  refine ⟨mkFileVersion
      (NewChangeset store ChangesetStatus.preSubmit sEnt.created_by).1.pointers
      (NewChangeset store ChangesetStatus.preSubmit sEnt.created_by).2
      (NewChangeset store ChangesetStatus.preSubmit sEnt.created_by).1.clock
      (p, f), ?_, ?_, rfl, ?_, ?_, ?_⟩
  · rw [CommitTxn_fileVersions]
    exact List.mem_append_right _ (List.mem_map_of_mem _ hmem)
  · show makeKeyName
      (NewChangeset store ChangesetStatus.preSubmit sEnt.created_by).2.num p =
        makeKeyName fnum p
    rw [hfe]
  · exact hfe
  · refine ⟨{ (NewChangeset store ChangesetStatus.preSubmit sEnt.created_by).2 with
        status := ChangesetStatus.submitted, linked := some snum }, ?_, rfl⟩
    rw [← hfe]
    exact CommitTxn_changesets_final _ _ _ _ _
  · show effectiveStatus f.status (store.pointers p) = _
    rcases hstaged with h | h <;> rw [h]
    · cases hp : store.pointers p <;>
        simp [effectiveStatus, hp]
    · simp [effectiveStatus]

/-- Closed witness for `commit_records_fileversion` at the store
`exStore`: committing staging changeset 1 records a CREATED row for the
edited, pointerless path `/a`. -/
theorem commit_records_fileversion_witness :
    (exStore.changesets 1 = some exChangeset ∧
      GetFiles exStore 1 exChangeset =
        some [(['/', 'a'], exFileA), (['/', 'b'], exFileB)] ∧
      (Commit exStore 1).2 = Except.ok 2 ∧
      (['/', 'a'], exFileA) ∈ [(['/', 'a'], exFileA), (['/', 'b'], exFileB)] ∧
      exFileA.status = FileStatus.edited) ∧
    (∃ fv ∈ (Commit exStore 1).1.fileVersions,
      fv.key_name = makeKeyName 2 ['/', 'a'] ∧
      fv.path = ['/', 'a'] ∧
      fv.changeset_num = 2 ∧
      (∃ fEnt, (Commit exStore 1).1.changesets 2 = some fEnt ∧
        fv.changeset_created_by = fEnt.created_by) ∧
      fv.status =
        (if exFileA.status = FileStatus.edited ∧
            exStore.pointers ['/', 'a'] = none then FileStatus.created
         else if exFileA.status = FileStatus.deleted then FileStatus.deleted
         else FileStatus.edited)) :=
  ⟨⟨rfl, by decide, rfl, by decide, rfl⟩,
    @commit_records_fileversion exStore 1 exChangeset
      [(['/', 'a'], exFileA), (['/', 'b'], exFileB)] 2 ['/', 'a'] exFileA
      rfl (by decide) rfl (by decide) (Or.inl rfl)⟩

/-- C2: During Commit, for every staged path whose effective status is
not DELETED, Pointer(p) is created or updated with `changeset_num` equal
to the staging changeset's number (which differs from the final
changeset's number); for every staged path whose effective status is
DELETED, Pointer(p) is deleted when it exists and no pointer is created
when it does not. -/
theorem commit_updates_pointers
    {store : Store} {snum : Nat} {sEnt : ChangesetEnt}
    {L : List (Path × StagedFile)} {fnum : Nat} {p : Path} {f : StagedFile}
    (hs : store.changesets snum = some sEnt)
    (hL : GetFiles store snum sEnt = some L)
    (hok : (Commit store snum).2 = Except.ok fnum)
    (hcnt : snum ≤ store.counter)
    (hnd : (L.map Prod.fst).Nodup)
    (hmem : (p, f) ∈ L) :
    snum ≠ fnum ∧
    (effectiveStatus f.status (store.pointers p) ≠ FileStatus.deleted →
      (Commit store snum).1.pointers p = some snum) ∧
    (effectiveStatus f.status (store.pointers p) = FileStatus.deleted →
      (Commit store snum).1.pointers p = none) := by
  obtain ⟨-, -, hf⟩ := Commit_ok_inv hs hL hok
  refine ⟨by omega, ?_, ?_⟩
  · intro heff
    rw [Commit_ok_store hs hL hok, CommitTxn_pointers]
    exact pointers_after_loop_ne_deleted hnd hmem heff
  · intro heff
    rw [Commit_ok_store hs hL hok, CommitTxn_pointers]
    exact pointers_after_loop_deleted hnd hmem heff

/-- Closed witness for `commit_updates_pointers` at `exStore`: after
committing staging changeset 1, the pointer of the edited path `/a` is
set to the staging number 1 and the pointer of the deleted path `/b` is
removed. -/
theorem commit_updates_pointers_witness :
    (exStore.changesets 1 = some exChangeset ∧
      (Commit exStore 1).2 = Except.ok 2 ∧
      (1 : Nat) ≤ exStore.counter ∧
      ([(['/', 'a'], exFileA), (['/', 'b'], exFileB)].map Prod.fst).Nodup ∧
      effectiveStatus exFileA.status (exStore.pointers ['/', 'a']) ≠
        FileStatus.deleted ∧
      effectiveStatus exFileB.status (exStore.pointers ['/', 'b']) =
        FileStatus.deleted) ∧
    (Commit exStore 1).1.pointers ['/', 'a'] = some 1 ∧
    (Commit exStore 1).1.pointers ['/', 'b'] = none :=
  ⟨⟨rfl, rfl, by decide, by decide, by decide, by decide⟩,
    (@commit_updates_pointers exStore 1 exChangeset
      [(['/', 'a'], exFileA), (['/', 'b'], exFileB)] 2 ['/', 'a'] exFileA
      rfl (by decide) rfl (by decide) (by decide) (by decide)).2.1 (by decide),
    (@commit_updates_pointers exStore 1 exChangeset
      [(['/', 'a'], exFileA), (['/', 'b'], exFileB)] 2 ['/', 'b'] exFileB
      rfl (by decide) rfl (by decide) (by decide) (by decide)).2.2 (by decide)⟩

/-- C3: Immediately after any successful Commit of a staging changeset,
the staging changeset has status DELETED_BY_SUBMIT, the returned final
changeset has status SUBMITTED, and the sibling links are symmetric:
the staging changeset is linked to the final changeset and the final
changeset is linked back to an entity carrying the staging number. -/
theorem commit_sibling_links
    {store : Store} {snum : Nat} {sEnt : ChangesetEnt}
    {L : List (Path × StagedFile)} {fnum : Nat}
    (hs : store.changesets snum = some sEnt)
    (hL : GetFiles store snum sEnt = some L)
    (hok : (Commit store snum).2 = Except.ok fnum)
    (hcnt : snum ≤ store.counter)
    (hnum : sEnt.num = snum) :
    ∃ sEnt2 fEnt2,
      (Commit store snum).1.changesets snum = some sEnt2 ∧
      (Commit store snum).1.changesets fnum = some fEnt2 ∧
      sEnt2.status = ChangesetStatus.deletedBySubmit ∧
      sEnt2.linked = some fnum ∧
      sEnt2.num = snum ∧
      fEnt2.status = ChangesetStatus.submitted ∧
      fEnt2.linked = some snum ∧
      fEnt2.num = fnum := by
  obtain ⟨-, -, hf⟩ := Commit_ok_inv hs hL hok
  have hfe : (NewChangeset store ChangesetStatus.preSubmit sEnt.created_by).2.num
      = fnum := by rw [hf]; rfl
  have hsnefn : snum ≠ fnum := by omega
  rw [Commit_ok_store hs hL hok]
  have hstg := CommitTxn_changesets_staged
    (NewChangeset store ChangesetStatus.preSubmit sEnt.created_by).1 snum sEnt
    (NewChangeset store ChangesetStatus.preSubmit sEnt.created_by).2 L
    (by rw [hfe]; exact hsnefn)
  have hfin := CommitTxn_changesets_final
    (NewChangeset store ChangesetStatus.preSubmit sEnt.created_by).1 snum sEnt
    (NewChangeset store ChangesetStatus.preSubmit sEnt.created_by).2 L
  rw [hfe] at hstg hfin
  exact ⟨_, _, hstg, hfin, rfl, rfl, hnum, rfl, rfl, rfl⟩

/-- Closed witness for `commit_sibling_links` at `exStore`. -/
theorem commit_sibling_links_witness :
    (exStore.changesets 1 = some exChangeset ∧ (1 : Nat) ≤ exStore.counter ∧
      exChangeset.num = 1) ∧
    (∃ sEnt2 fEnt2,
      (Commit exStore 1).1.changesets 1 = some sEnt2 ∧
      (Commit exStore 1).1.changesets 2 = some fEnt2 ∧
      sEnt2.status = ChangesetStatus.deletedBySubmit ∧
      sEnt2.linked = some 2 ∧
      sEnt2.num = 1 ∧
      fEnt2.status = ChangesetStatus.submitted ∧
      fEnt2.linked = some 1 ∧
      fEnt2.num = 2) :=
  ⟨⟨rfl, by decide, rfl⟩,
    @commit_sibling_links exStore 1 exChangeset
      [(['/', 'a'], exFileA), (['/', 'b'], exFileB)] 2
      rfl (by decide) rfl (by decide) rfl⟩

/-- C4: Commit raises CommitError when the enumeration of the staged
files is empty (and this check fires regardless of the status), raises
CommitError when the status is not NEW, and proceeds past both checks
exactly when the enumeration is non-empty and the status is NEW. -/
theorem commit_precondition_checks
    {store : Store} {snum : Nat} {sEnt : ChangesetEnt}
    {L : List (Path × StagedFile)}
    (hs : store.changesets snum = some sEnt)
    (hL : GetFiles store snum sEnt = some L) :
    (L = [] →
      Commit store snum = (store, Except.error (TitanError.commitEmpty snum))) ∧
    (L ≠ [] → sEnt.status ≠ ChangesetStatus.new →
      Commit store snum =
        (store, Except.error (TitanError.commitBadStatus sEnt.status))) ∧
    (L ≠ [] → sEnt.status = ChangesetStatus.new →
      ∃ fnum, (Commit store snum).2 = Except.ok fnum) := by
  refine ⟨?_, ?_, ?_⟩
  · intro hne
    rw [Commit_eq_of hs hL, if_pos hne]
  · intro hne hst
    rw [Commit_eq_of hs hL, if_neg hne, if_pos hst]
  · intro hne hst
    rw [Commit_eq_of hs hL, if_neg hne, if_neg (by simp [hst])]
    exact ⟨_, rfl⟩

/-- Closed witness for `commit_precondition_checks`: at `exStore` the
staged enumeration of changeset 1 is non-empty and its status is NEW, so
the commit proceeds; the two error conclusions hold vacuously and the
empty-before-status ordering is exercised in the theorem itself. -/
theorem commit_precondition_checks_witness :
    (exStore.changesets 1 = some exChangeset ∧
      GetFiles exStore 1 exChangeset =
        some [(['/', 'a'], exFileA), (['/', 'b'], exFileB)] ∧
      ([(['/', 'a'], exFileA), (['/', 'b'], exFileB)] :
          List (Path × StagedFile)) ≠ [] ∧
      exChangeset.status = ChangesetStatus.new) ∧
    (∃ fnum, (Commit exStore 1).2 = Except.ok fnum) :=
  ⟨⟨rfl, by decide, by decide, rfl⟩,
    (@commit_precondition_checks exStore 1 exChangeset
      [(['/', 'a'], exFileA), (['/', 'b'], exFileB)] rfl (by decide)).2.2
      (by decide) rfl⟩

/-- C9: Commit mutates only the changeset entities, the new FileVersion
rows, and the Pointer rows of the committed paths.  The staged file
blobs are never rewritten, moved or deleted by any Commit: the file
table of the post-state equals that of the pre-state, a failed Commit
leaves the whole store untouched, and a successful Commit changes no
changeset entity other than the two siblings, only appends FileVersion
rows, and changes no pointer outside the committed paths. -/
theorem commit_preserves_staged_blobs (store : Store) (snum : Nat) :
    (Commit store snum).1.files = store.files ∧
    ((Commit store snum).1 = store ∨
      ∃ fnum, (Commit store snum).2 = Except.ok fnum) ∧
    (∀ sEnt L fnum, store.changesets snum = some sEnt →
      GetFiles store snum sEnt = some L →
      (Commit store snum).2 = Except.ok fnum →
      (∀ n, n ≠ snum → n ≠ fnum →
        (Commit store snum).1.changesets n = store.changesets n) ∧
      (∃ fvs, (Commit store snum).1.fileVersions = store.fileVersions ++ fvs) ∧
      (∀ p, p ∉ L.map Prod.fst →
        (Commit store snum).1.pointers p = store.pointers p)) := by
  refine ⟨?_, ?_, ?_⟩
  · unfold Commit
    split
    · rfl
    · split
      · rfl
      · split
        · rfl
        · split
          · rfl
          · rfl
  · unfold Commit
    split
    · exact Or.inl rfl
    · split
      · exact Or.inl rfl
      · split
        · exact Or.inl rfl
        · split
          · exact Or.inl rfl
          · exact Or.inr ⟨_, rfl⟩
  · intro sEnt L fnum hs hL hok
    obtain ⟨-, -, hf⟩ := Commit_ok_inv hs hL hok
    refine ⟨?_, ?_, ?_⟩
    · intro n h1 h2
      have h2c : ¬ n = store.counter + 1 := by rw [← hf]; exact h2
      rw [Commit_ok_store hs hL hok,
        CommitTxn_changesets_other _ _ _ _ _ n h1 (by rw [hf] at h2; exact h2),
        NewChangeset_changesets_other _ _ _ _ h2c]
    · rw [Commit_ok_store hs hL hok, CommitTxn_fileVersions]
      exact ⟨_, rfl⟩
    · intro p hp
      rw [Commit_ok_store hs hL hok, CommitTxn_pointers]
      exact pointers_after_loop_frame hp

/-- Closed witness for `commit_preserves_staged_blobs` at `exStore`:
committing changeset 1 leaves the file table, an unrelated changeset
number and an unrelated pointer untouched. -/
theorem commit_preserves_staged_blobs_witness :
    (exStore.changesets 1 = some exChangeset ∧
      GetFiles exStore 1 exChangeset =
        some [(['/', 'a'], exFileA), (['/', 'b'], exFileB)] ∧
      (Commit exStore 1).2 = Except.ok 2 ∧
      (5 : Nat) ≠ 1 ∧ (5 : Nat) ≠ 2 ∧
      ['/', 'c'] ∉
        ([(['/', 'a'], exFileA), (['/', 'b'], exFileB)].map Prod.fst)) ∧
    (Commit exStore 1).1.files = exStore.files ∧
    (Commit exStore 1).1.changesets 5 = exStore.changesets 5 ∧
    (Commit exStore 1).1.pointers ['/', 'c'] = exStore.pointers ['/', 'c'] :=
  ⟨⟨rfl, by decide, rfl, by decide, by decide, by decide⟩,
    (commit_preserves_staged_blobs exStore 1).1,
    ((commit_preserves_staged_blobs exStore 1).2.2 exChangeset
        [(['/', 'a'], exFileA), (['/', 'b'], exFileB)] 2 rfl (by decide) rfl).1
      5 (by decide) (by decide),
    ((commit_preserves_staged_blobs exStore 1).2.2 exChangeset
        [(['/', 'a'], exFileA), (['/', 'b'], exFileB)] 2 rfl (by decide) rfl).2.2
      ['/', 'c'] (by decide)⟩

/-- C10: A FileVersion object's `versioned_path` is formatted from the
changeset number it was constructed with joined to its plain path; for a
committed revision that number is the final changeset's, which differs
from the staging number stored in the Pointer (where the committed blob
actually resides), and `GenerateDiff` accordingly fetches content
through the changeset's `linked_changeset` — the staging-changeset path
— rather than through `versioned_path`. -/
theorem fileversion_diff_fetch
    {store : Store} {snum : Nat} {sEnt : ChangesetEnt}
    {L : List (Path × StagedFile)} {fnum : Nat} {p : Path} {f : StagedFile}
    (hs : store.changesets snum = some sEnt)
    (hL : GetFiles store snum sEnt = some L)
    (hok : (Commit store snum).2 = Except.ok fnum)
    (hcnt : snum ≤ store.counter)
    (hnd : (L.map Prod.fst).Nodup)
    (hmem : (p, f) ∈ L)
    (heff : effectiveStatus f.status (store.pointers p) ≠ FileStatus.deleted) :
    FileVersionObj.versioned_path ⟨p, fnum⟩ = makeVersionedPath fnum p ∧
    (Commit store snum).1.pointers p = some snum ∧
    snum ≠ fnum ∧
    makeVersionedPath snum p ≠ FileVersionObj.versioned_path ⟨p, fnum⟩ ∧
    generateDiffFetchOne (Commit store snum).1 ⟨p, fnum⟩ =
      lookupFile (Commit store snum).1.files (makeVersionedPath snum p) := by
  obtain ⟨-, -, hf⟩ := Commit_ok_inv hs hL hok
  have hfe : (NewChangeset store ChangesetStatus.preSubmit sEnt.created_by).2.num
      = fnum := by rw [hf]; rfl
  have hsnefn : snum ≠ fnum := by omega
  refine ⟨rfl, ?_, hsnefn, ?_, ?_⟩
  · rw [Commit_ok_store hs hL hok, CommitTxn_pointers]
    exact pointers_after_loop_ne_deleted hnd hmem heff
  · exact fun h => hsnefn (makeVersionedPath_num_inj h)
  · have hfin := CommitTxn_changesets_final
      (NewChangeset store ChangesetStatus.preSubmit sEnt.created_by).1 snum sEnt
      (NewChangeset store ChangesetStatus.preSubmit sEnt.created_by).2 L
    rw [hfe] at hfin
    rw [Commit_ok_store hs hL hok]
    simp only [generateDiffFetchOne, hfin]
    rfl

/-- Closed witness for `fileversion_diff_fetch` at `exStore` with the
committed path `/a`. -/
theorem fileversion_diff_fetch_witness :
    (exStore.changesets 1 = some exChangeset ∧
      (Commit exStore 1).2 = Except.ok 2 ∧
      (1 : Nat) ≤ exStore.counter ∧
      effectiveStatus exFileA.status (exStore.pointers ['/', 'a']) ≠
        FileStatus.deleted) ∧
    (FileVersionObj.versioned_path ⟨['/', 'a'], 2⟩ =
        makeVersionedPath 2 ['/', 'a'] ∧
      (Commit exStore 1).1.pointers ['/', 'a'] = some 1 ∧
      (1 : Nat) ≠ 2 ∧
      makeVersionedPath 1 ['/', 'a'] ≠
        FileVersionObj.versioned_path ⟨['/', 'a'], 2⟩ ∧
      generateDiffFetchOne (Commit exStore 1).1 ⟨['/', 'a'], 2⟩ =
        lookupFile (Commit exStore 1).1.files (makeVersionedPath 1 ['/', 'a'])) :=
  ⟨⟨rfl, rfl, by decide, by decide⟩,
    @fileversion_diff_fetch exStore 1 exChangeset
      [(['/', 'a'], exFileA), (['/', 'b'], exFileB)] 2 ['/', 'a'] exFileA
      rfl (by decide) rfl (by decide) (by decide) (by decide) (by decide)⟩

lemma hookForGetPre_multiple_versioned (ptrs : Path → Option Nat)
    (ps : List Path) :
    ((ps.map (fun p => (ptrs p).map (fun n => (p, n)))).filterMap id).map
        pointerVersionedPath =
      ps.filterMap (fun q => (ptrs q).map (fun n => makeVersionedPath n q)) := by
  rw [List.filterMap_map, List.map_filterMap]
  simp [Function.comp_def, Option.map_map, pointerVersionedPath,
    makeVersionedPath]

lemma hookForGetPre_single (ptrs : Path → Option Nat) (p : Path) :
    hookForGetPre ptrs (PathsArg.single p) =
      (match ptrs p with
       | none => GetPreResult.shortCircNone
       | some n =>
         GetPreResult.passThrough (PyPathsOut.single (makeVersionedPath n p))) := by
  cases hp : ptrs p <;> simp [hookForGetPre, hp, pointerVersionedPath]

lemma hookForGetPre_multiple (ptrs : Path → Option Nat) (ps : List Path) :
    hookForGetPre ptrs (PathsArg.multiple ps) =
      (if ps.filterMap (fun q => (ptrs q).map (fun n => makeVersionedPath n q)) = []
       then GetPreResult.shortCircEmptyDict
       else GetPreResult.passThrough (PyPathsOut.multiple
         (ps.filterMap (fun q => (ptrs q).map (fun n => makeVersionedPath n q))))) := by
  simp only [hookForGetPre, hookForGetPre_multiple_versioned]

/-- C5: For `files.Get` invoked without a changeset, every requested
path that has no Pointer entry is dropped (the inner call receives
exactly the pointer-dereferenced versioned paths of the known entries,
in order), and when none of the requested paths has a Pointer entry the
hook short-circuits — the inner get is never invoked — returning None
for a single-path call and the empty mapping for a multi-path call. -/
theorem get_hook_drops_unknown_paths (ptrs : Path → Option Nat) (p : Path)
    (ps : List Path) :
    (hookForGetPre ptrs (PathsArg.single p) = GetPreResult.shortCircNone ↔
      ptrs p = none) ∧
    (hookForGetPre ptrs (PathsArg.multiple ps) = GetPreResult.shortCircEmptyDict ↔
      ∀ q ∈ ps, ptrs q = none) ∧
    (∀ vps, hookForGetPre ptrs (PathsArg.multiple ps) =
        GetPreResult.passThrough (PyPathsOut.multiple vps) →
      vps = ps.filterMap (fun q => (ptrs q).map (fun n => makeVersionedPath n q))) := by
  refine ⟨?_, ?_, ?_⟩
  · rw [hookForGetPre_single]
    cases hp : ptrs p <;> simp
  · rw [hookForGetPre_multiple]
    by_cases hc : ps.filterMap
        (fun q => (ptrs q).map (fun n => makeVersionedPath n q)) = []
    · rw [if_pos hc]
      simp only [true_iff, eq_self_iff_true]
      intro q hq
      exact Option.map_eq_none'.mp (List.filterMap_eq_nil_iff.mp hc q hq)
    · rw [if_neg hc]
      constructor
      · intro h
        cases h
      · intro hall
        exact absurd
          (List.filterMap_eq_nil_iff.mpr
            (fun q hq => by rw [hall q hq]; rfl)) hc
  · intro vps h
    rw [hookForGetPre_multiple] at h
    by_cases hc : ps.filterMap
        (fun q => (ptrs q).map (fun n => makeVersionedPath n q)) = []
    · rw [if_pos hc] at h
      cases h
    · rw [if_neg hc] at h
      injection h with h
      injection h with h
      exact h.symm

/-- Closed witness for `get_hook_drops_unknown_paths` with a pointer
table holding only `/b`: a single-path get of `/a` short-circuits to
None, a multi-path get of `[/a, /c]` short-circuits to the empty
mapping, and a multi-path get of `[/a, /b]` drops `/a` and passes only
the versioned path of `/b` to the inner call. -/
theorem get_hook_drops_unknown_paths_witness :
    (exStore.pointers ['/', 'a'] = none ∧
      (∀ q ∈ [['/', 'a'], ['/', 'c']], exStore.pointers q = none)) ∧
    hookForGetPre exStore.pointers (PathsArg.single ['/', 'a']) =
      GetPreResult.shortCircNone ∧
    hookForGetPre exStore.pointers
        (PathsArg.multiple [['/', 'a'], ['/', 'c']]) =
      GetPreResult.shortCircEmptyDict ∧
    (∀ vps, hookForGetPre exStore.pointers
        (PathsArg.multiple [['/', 'a'], ['/', 'b']]) =
        GetPreResult.passThrough (PyPathsOut.multiple vps) →
      vps = [['/', 'a'], ['/', 'b']].filterMap
        (fun q => (exStore.pointers q).map (fun n => makeVersionedPath n q))) :=
  ⟨⟨by decide, by decide⟩,
    (get_hook_drops_unknown_paths exStore.pointers ['/', 'a'] []).1.mpr
      (by decide),
    (get_hook_drops_unknown_paths exStore.pointers ['/', 'a']
        [['/', 'a'], ['/', 'c']]).2.1.mpr (by decide),
    (get_hook_drops_unknown_paths exStore.pointers ['/', 'a']
        [['/', 'a'], ['/', 'b']]).2.2⟩

/-- C6: Every Write, Touch or Delete invoked with a changeset whose
status is not NEW raises ChangesetError from the verification performed
before any path is rewritten or any file mutated, and each of the three
operations proceeds exactly when the changeset status is NEW. -/
theorem write_hooks_require_new_changeset (store : Store) (cs : ChangesetEnt)
    (deleteFlag : Bool) (p : Path) (ps : List Path) :
    (cs.status ≠ ChangesetStatus.new →
      hookForWritePre store cs deleteFlag p =
        Except.error (TitanError.changesetNotNew cs.status) ∧
      hookForTouchPre store cs ps =
        Except.error (TitanError.changesetNotNew cs.status) ∧
      hookForDeletePre cs ps =
        Except.error (TitanError.changesetNotNew cs.status)) ∧
    (cs.status = ChangesetStatus.new →
      (∃ r, hookForWritePre store cs deleteFlag p = Except.ok r) ∧
      (∃ r, hookForTouchPre store cs ps = Except.ok r) ∧
      (∃ r, hookForDeletePre cs ps = Except.ok r)) := by
  constructor
  · intro h
    have hv : VerifyIsNewChangeset cs =
        Except.error (TitanError.changesetNotNew cs.status) := by
      simp [VerifyIsNewChangeset, h]
    exact ⟨by simp [hookForWritePre, hv], by simp [hookForTouchPre, hv],
      by simp [hookForDeletePre, hv]⟩
  · intro h
    have hv : VerifyIsNewChangeset cs = Except.ok () := by
      simp [VerifyIsNewChangeset, h]
    refine ⟨?_, ?_, ?_⟩
    · cases deleteFlag
      · rcases hres : hookForWritePre store cs false p with e | r
        · simp [hookForWritePre, hv] at hres
        · exact ⟨r, rfl⟩
      · rcases hres : hookForWritePre store cs true p with e | r
        · simp [hookForWritePre, hv] at hres
        · exact ⟨r, rfl⟩
    · rcases hres : hookForTouchPre store cs ps with e | r
      · simp [hookForTouchPre, hv] at hres
      · exact ⟨r, rfl⟩
    · rcases hres : hookForDeletePre cs ps with e | r
      · simp [hookForDeletePre, hv] at hres
      · exact ⟨r, rfl⟩

/-- Closed witness for `write_hooks_require_new_changeset`: against the
NEW changeset 1 all three hooks proceed, and against a SUBMITTED
changeset all three raise ChangesetError. -/
theorem write_hooks_require_new_changeset_witness :
    (exChangeset.status = ChangesetStatus.new ∧
      exSubmittedChangeset.status ≠ ChangesetStatus.new) ∧
    (∃ r, hookForWritePre exStore exChangeset false ['/', 'a'] = Except.ok r) ∧
    hookForWritePre exStore exSubmittedChangeset false ['/', 'a'] =
      Except.error (TitanError.changesetNotNew exSubmittedChangeset.status) ∧
    hookForTouchPre exStore exSubmittedChangeset [['/', 'a']] =
      Except.error (TitanError.changesetNotNew exSubmittedChangeset.status) ∧
    hookForDeletePre exSubmittedChangeset [['/', 'a']] =
      Except.error (TitanError.changesetNotNew exSubmittedChangeset.status) :=
  ⟨⟨rfl, by decide⟩,
    ((write_hooks_require_new_changeset exStore exChangeset false ['/', 'a']
        [['/', 'a']]).2 rfl).1,
    ((write_hooks_require_new_changeset exStore exSubmittedChangeset false
        ['/', 'a'] [['/', 'a']]).1 (by decide)).1,
    ((write_hooks_require_new_changeset exStore exSubmittedChangeset false
        ['/', 'a'] [['/', 'a']]).1 (by decide)).2.1,
    ((write_hooks_require_new_changeset exStore exSubmittedChangeset false
        ['/', 'a'] [['/', 'a']]).1 (by decide)).2.2⟩

/-- C7: GetFileVersions(p, n) returns only rows whose path equals p, at
most n of them, ordered by created descending; and whenever the stored
rows of p order identically by creation time and by changeset number
(as commit-written rows do, changeset allocation being monotonic and
each row being written once per commit), the result is also ordered by
changeset_num descending. -/
theorem getFileVersions_spec (store : Store) (p : Path) (limit : Nat)
    (hmono : ∀ a ∈ store.fileVersions, ∀ b ∈ store.fileVersions,
      a.path = p → b.path = p →
      (b.created ≤ a.created ↔ b.changeset_num ≤ a.changeset_num)) :
    (∀ fv ∈ GetFileVersions store p limit,
      fv.path = p ∧ fv ∈ store.fileVersions) ∧
    (GetFileVersions store p limit).length ≤ limit ∧
    List.Sorted byCreatedDesc (GetFileVersions store p limit) ∧
    List.Sorted (fun a b => b.changeset_num ≤ a.changeset_num)
      (GetFileVersions store p limit) := by
  have hmem : ∀ fv ∈ GetFileVersions store p limit,
      fv.path = p ∧ fv ∈ store.fileVersions := by
    intro fv hfv
    have h1 : fv ∈ List.insertionSort byCreatedDesc
        (store.fileVersions.filter (fun x => decide (x.path = p))) :=
      (List.take_sublist _ _).subset hfv
    have h2 : fv ∈ store.fileVersions.filter (fun x => decide (x.path = p)) :=
      (List.perm_insertionSort byCreatedDesc _).mem_iff.mp h1
    have h3 := List.mem_filter.mp h2
    exact ⟨by simpa using h3.2, h3.1⟩
  have hsorted : List.Sorted byCreatedDesc (GetFileVersions store p limit) :=
    List.Pairwise.sublist (List.take_sublist _ _)
      (List.sorted_insertionSort byCreatedDesc _)
  refine ⟨hmem, ?_, hsorted, ?_⟩
  · exact List.length_take_le _ _
  · refine List.Pairwise.imp_of_mem ?_ hsorted
    intro a b ha hb hr
    obtain ⟨hap, haf⟩ := hmem a ha
    obtain ⟨hbp, hbf⟩ := hmem b hb
    exact (hmono a haf b hbf hap hbp).mp hr

/-- Closed witness for `getFileVersions_spec` at `exHistoryStore` with
path `/a` and limit 2. -/
theorem getFileVersions_spec_witness :
    (∀ a ∈ exHistoryStore.fileVersions, ∀ b ∈ exHistoryStore.fileVersions,
      a.path = ['/', 'a'] → b.path = ['/', 'a'] →
      (b.created ≤ a.created ↔ b.changeset_num ≤ a.changeset_num)) ∧
    ((∀ fv ∈ GetFileVersions exHistoryStore ['/', 'a'] 2,
      fv.path = ['/', 'a'] ∧ fv ∈ exHistoryStore.fileVersions) ∧
    (GetFileVersions exHistoryStore ['/', 'a'] 2).length ≤ 2 ∧
    List.Sorted byCreatedDesc (GetFileVersions exHistoryStore ['/', 'a'] 2) ∧
    List.Sorted (fun a b => b.changeset_num ≤ a.changeset_num)
      (GetFileVersions exHistoryStore ['/', 'a'] 2)) :=
  ⟨by decide, getFileVersions_spec exHistoryStore ['/', 'a'] 2 (by decide)⟩

/-- C8 counterexample: the claim states that the rewriter produces
exactly `/_ver/<num><path>` and that stripping recovers `(num, path)`
for every string path; the code's prefix is `/_titan/ver/` instead, and
for a path beginning with a digit the greedy group `([0-9]+)` absorbs
the path's leading digits, so the roundtrip also fails there. -/
theorem path_rewriter_claim_counterexample :
    makeVersionedPath 1 ['/', 'a'] ≠
      ['/', '_', 'v', 'e', 'r', '/', '1', '/', 'a'] ∧
    stripVersion (makeVersionedPath 1 ['0']) ≠ some (1, ['0']) := by
  constructor <;> decide

lemma mapVersioned_strs (n : Nat) (ss : List Path) :
    mapVersioned n (ss.map PyVal.str) =
      Except.ok (ss.map (makeVersionedPath n)) := by
  induction ss with
  | nil => rfl
  | cons s t ih => simp [mapVersioned, ih]

lemma mapVersioned_obj {vs : List PyVal} (h : PyVal.obj ∈ vs) (n : Nat) :
    mapVersioned n vs = Except.error TitanError.typeError := by
  induction vs with
  | nil => cases h
  | cons v t ih =>
    cases v with
    | obj => rfl
    | str s =>
      have ht : PyVal.obj ∈ t := by
        rcases List.mem_cons.mp h with h1 | h2
        · exact PyVal.noConfusion h1
        · exact h2
      simp [mapVersioned, ih ht]

/-- C8 amended: for every changeset number and every path given as a
string, the rewriter produces exactly `/_titan/ver/<num><path>`;
stripping the prefix with the regex `^/_titan/ver/([0-9]+)` recovers
`(num, path)` for every path that does not begin with a decimal digit
(in particular every absolute path, which begins with `/`), so strip
after make is the identity there; applied to a sequence of paths the
rewriter maps over them, preserving order and multiplicity; and any
non-string path input is rejected with a type error. -/
theorem path_rewriter_amended :
    (∀ n pth, makeVersionedPath n pth =
      ['/', '_', 't', 'i', 't', 'a', 'n', '/', 'v', 'e', 'r', '/'] ++
        (natChars n ++ pth)) ∧
    (∀ n pth, pth.takeWhile Char.isDigit = [] →
      stripVersion (makeVersionedPath n pth) = some (n, pth)) ∧
    (∀ (n : Nat) (ss : List Path),
      MakeVersionedPaths (PyPaths.multiple (ss.map PyVal.str)) n =
        Except.ok (PyPathsOut.multiple (ss.map (makeVersionedPath n)), true)) ∧
    (∀ n, MakeVersionedPaths (PyPaths.single PyVal.obj) n =
      Except.error TitanError.typeError) ∧
    (∀ (n : Nat) (vs : List PyVal), PyVal.obj ∈ vs →
      MakeVersionedPaths (PyPaths.multiple vs) n =
        Except.error TitanError.typeError) := by
  refine ⟨?_, ?_, ?_, ?_, ?_⟩
  · intro n pth
    simp [makeVersionedPath, verPrefix, List.append_assoc]
  · intro n pth hp
    exact stripVersion_make n pth hp
  · intro n ss
    simp [MakeVersionedPaths, mapVersioned_strs]
  · intro n
    rfl
  · intro n vs h
    simp [MakeVersionedPaths, mapVersioned_obj h]

/-- Closed witness for `path_rewriter_amended`: the roundtrip at
changeset 7 and path `/a`, and the type error on a list containing a
non-string. -/
theorem path_rewriter_amended_witness :
    ((['/', 'a'] : Path).takeWhile Char.isDigit = [] ∧
      PyVal.obj ∈ [PyVal.str ['/', 'a'], PyVal.obj]) ∧
    stripVersion (makeVersionedPath 7 ['/', 'a']) = some (7, ['/', 'a']) ∧
    MakeVersionedPaths (PyPaths.multiple [PyVal.str ['/', 'a'], PyVal.obj]) 7 =
      Except.error TitanError.typeError :=
  ⟨⟨by decide, by decide⟩,
    path_rewriter_amended.2.1 7 ['/', 'a'] (by decide),
    path_rewriter_amended.2.2.2.2 7 [PyVal.str ['/', 'a'], PyVal.obj]
      (by decide)⟩

end Titan
